import Mathlib

/-!
Shallow embedding of `audit_codebase.py` (Insight Atlas iOS codebase audit
script) and verification of the specification's claims about it.

Modelling conventions:
* Python strings are Lean `String`s; the Python substring test `pat in s`
  is `strContains s pat`, a search over the character lists.
* The filesystem is a function `FPath → Option String` (`none` models any
  read failure: missing file, permission error, bad encoding), and the
  recursive directory scans (`rglob`) are modelled by an explicit list of
  `SFile` records, one per file found under the source roots, in traversal
  order, each carrying its full path, its base name (the component the
  glob pattern is matched against) and its optional content.
* `float` scores are modelled as exact rationals: the score expression
  `passed / total * 100` is a single short float computation whose
  real-number value is what the spec states.
* Side effects: `print` output of `print_results` is modelled as a list of
  `Line` values in emission order; the mutating `self.results.append` of
  `add_result` is modelled by explicit state passing (a group maps the
  session list to the extended session list).
-/

/-- Result record emitted by one check: mirrors the Python dataclass
`AuditResult(category, check, passed, message, severity)`. -/
structure AuditResult where
  category : String
  check : String
  passed : Bool
  message : String
  severity : String
deriving DecidableEq, Repr

/-- FPath in the audited project, as a string (relative to the project root). -/
abbrev FPath := String

/-- Boolean substring search on character lists: `infixOf pat l` is true iff
`pat` occurs contiguously inside `l`.  This implements Python's `pat in s`. -/
def infixOf (pat : List Char) : List Char → Bool
  | [] => pat.isPrefixOf []
  | c :: rest => pat.isPrefixOf (c :: rest) || infixOf pat rest

/-- String containment: Python's `pat in s`. -/
def strContains (s pat : String) : Bool :=
  infixOf pat.toList s.toList

/-- FPath of `DataManager.swift` (from `InsightAtlasAuditor.__init__`). -/
def data_manager_path : FPath := "InsightAtlas/Services/DataManager.swift"

/-- FPath of `InsightAtlasStyle.swift` (from `__init__`). -/
def style_path : FPath := "InsightAtlas/Services/InsightAtlasStyle.swift"

/-- FPath of `GuideView.swift` (from `__init__`). -/
def guide_view_path : FPath := "InsightAtlas/Views/GuideView.swift"

/-- FPath of `QualityAuditService.swift` (from `__init__`). -/
def quality_audit_path : FPath := "InsightAtlas/Services/QualityAuditService.swift"

/-- FPath of `RegenerateView.swift` (from `__init__`). -/
def regenerate_view_path : FPath := "InsightAtlas/Views/RegenerateView.swift"

/-- FPath of `InsightAtlasApp.swift` (from `__init__`). -/
def app_path : FPath := "InsightAtlas/InsightAtlasApp.swift"

/-- FPath of `Info.plist` (from `__init__`). -/
def info_plist_path : FPath := "InsightAtlas/Info.plist"

/-- Embedding of `InsightAtlasAuditor.read_file`: `path.read_text` either
succeeds (the filesystem yields `some s`) or raises, in which case the
`except` clause returns the empty string.  The function is total: no
exception escapes. -/
def read_file (fs : FPath → Option String) (p : FPath) : String :=
  (fs p).getD ""

/-- Per-path count of how many times the underlying `path.read_text` has
been invoked during the run. -/
structure ReadCount where
  count : FPath → Nat

/-- Initial read-count state of a run: no reads performed yet. -/
def initReads : ReadCount := ⟨fun _ => 0⟩

/-- Embedding of `read_file` instrumented with the read counter: the body
of `read_file` unconditionally calls `path.read_text` (there is no cache
lookup in the source), so every invocation increments the count for the
requested path. -/
def read_file_counted (fs : FPath → Option String) (st : ReadCount) (p : FPath) :
    String × ReadCount :=
  ((fs p).getD "", ⟨fun q => if q = p then st.count q + 1 else st.count q⟩)

/-- Embedding of `InsightAtlasAuditor.add_result`: appends one record to the
session's result list (the source defaults `severity` to "error"; callers of
the embedding pass it explicitly). -/
def add_result (results : List AuditResult) (category check : String)
    (passed : Bool) (message severity : String) : List AuditResult :=
  results ++ [⟨category, check, passed, message, severity⟩]

/-- Running one audit group against a session: the group reads its file
content and appends its emitted records to `self.results`. -/
def run_group (group : String → List AuditResult) (content : String)
    (session : List AuditResult) : List AuditResult :=
  session ++ group content

/-- Overall score of `print_results`:
`(passed_checks / total_checks * 100) if total_checks > 0 else 0`. -/
def score (results : List AuditResult) : ℚ :=
  if 0 < results.length then
    (((results.filter (fun r => r.passed)).length : ℚ) / (results.length : ℚ)) * 100
  else 0

/-- Number of passing records (`passed_checks` in `print_results`). -/
def passed_checks (results : List AuditResult) : Nat :=
  (results.filter (fun r => r.passed)).length

/-- Number of records (`total_checks` in `print_results`). -/
def total_checks (results : List AuditResult) : Nat :=
  results.length

/-- Number of failing records (`failed_checks = total_checks - passed_checks`). -/
def failed_checks (results : List AuditResult) : Nat :=
  total_checks results - passed_checks results

/-- One step of the category-grouping loop of `print_results`: Python dict
insertion keyed by `result.category`, first-seen key order, values in
arrival order. -/
def addToGroups (acc : List (String × List AuditResult)) (r : AuditResult) :
    List (String × List AuditResult) :=
  if acc.any (fun p => p.1 = r.category) then
    acc.map (fun p => if p.1 = r.category then (p.1, p.2 ++ [r]) else p)
  else
    acc ++ [(r.category, [r])]

/-- Embedding of the grouping loop `for result in self.results: ...` of
`print_results`. -/
def groupByCategory (results : List AuditResult) :
    List (String × List AuditResult) :=
  results.foldl addToGroups []

/-- First-seen deduplication of a key list: keeps the first occurrence of
every key, in order of first appearance (the key order of a Python dict
built by insertion). -/
def firstSeen : List String → List String
  | [] => []
  | c :: cs => c :: (firstSeen cs).filter (fun x => x ≠ c)

/-- Closed form of the grouping loop: keys in first-seen order, each paired
with the sublist of records bearing that category. -/
def groupsOf (results : List AuditResult) : List (String × List AuditResult) :=
  (firstSeen (results.map (fun r => r.category))).map
    (fun c => (c, results.filter (fun r => r.category = c)))

/-- Output line of `print_results`, one constructor per `print` shape. -/
inductive Line where
  | banner (s : String)
  | categoryHeader (category : String) (passed total : Nat)
  | checkLine (passed : Bool) (check : String)
  | failDetail (message : String)
  | overallScore (value : ℚ) (passed total : Nat)
  | issuesCount (n : Nat)
  | failedItem (category check message : String)
  | allPassed
deriving DecidableEq

/-- Lines printed for one category section: header with local pass counts,
then a line per record, with the failure message under each failing one. -/
def categoryBlock (p : String × List AuditResult) : List Line :=
  Line.categoryHeader p.1 ((p.2.filter (fun r => r.passed)).length) p.2.length ::
    p.2.flatMap (fun r =>
      Line.checkLine r.passed r.check ::
        (if r.passed then [] else [Line.failDetail r.message]))

/-- Embedding of `InsightAtlasAuditor.print_results`: emits the report
lines in order and returns the overall score. -/
def print_results (results : List AuditResult) : List Line × ℚ :=
  let categories := groupByCategory results
  let tail : List Line :=
    if 0 < failed_checks results then
      Line.issuesCount (failed_checks results) :: Line.banner "FAILED CHECKS:" ::
        (results.filter (fun r => !r.passed)).map
          (fun r => Line.failedItem r.category r.check r.message)
    else [Line.allPassed]
  (Line.banner "AUDIT RESULTS" ::
     (categories.flatMap categoryBlock ++
       (Line.overallScore (score results) (passed_checks results)
          (total_checks results) :: tail)),
   score results)

/-- Table of required CSS classes checked by `audit_html_export`. -/
def required_css_classes : List (String × String) := [
  ("quick-glance", "Quick Glance block styling"),
  ("insight-note", "Insight Note block styling"),
  ("action-box", "Action Box block styling"),
  ("visual-flowchart", "Visual Flowchart block styling"),
  ("visual-table", "Visual Table block styling"),
  ("exercise", "Exercise block styling"),
  ("foundational-narrative", "Foundational Narrative styling"),
  ("structure-map", "Structure Map styling"),
  ("takeaways", "Takeaways block styling"),
  ("reading-time-badge", "Reading time badge styling"),
  ("flow-step", "Flowchart step styling"),
  ("flow-arrow", "Flowchart arrow styling"),
  ("styled-table", "Table styling")]

/-- Table of required rendering functions checked by `audit_html_export`. -/
def required_functions : List (String × String) := [
  ("renderSpecialBlock", "Special block renderer"),
  ("renderFlowchartContent", "Flowchart content renderer"),
  ("renderBlockContent", "Block content renderer"),
  ("renderStructureMapContent", "Structure map renderer"),
  ("renderBlockTableContent", "Block table renderer"),
  ("convertInlineMarkdown", "Inline markdown converter"),
  ("calculateReadingTime", "Dynamic reading time calculator")]

/-- Table of required CSS brand colors checked by `audit_html_export`. -/
def brand_colors : List (String × String) := [
  ("--gold: #CBA135", "Gold primary color"),
  ("--burgundy: #582534", "Burgundy color"),
  ("--coral: #E76F51", "Coral accent color")]

/-- Python conditional `'found' if b else 'MISSING'` used in messages. -/
def foundOrMissing (b : Bool) : String := if b then "found" else "MISSING"

/-- Embedding of `InsightAtlasAuditor.audit_html_export`: the records the
group appends, as a function of the content of `DataManager.swift`. -/
def audit_html_export (content : String) : List AuditResult :=
  (required_css_classes.map (fun q =>
    let has_class := strContains content ("." ++ q.1)
    (⟨"HTML Export", "Has " ++ q.2, has_class,
      "CSS class ." ++ q.1 ++ " " ++ foundOrMissing has_class,
      "error"⟩ : AuditResult)))
  ++ (required_functions.map (fun q =>
    let has_func := strContains content ("func " ++ q.1) ||
                    strContains content ("private func " ++ q.1)
    (⟨"HTML Export", "Has " ++ q.2, has_func,
      "Function " ++ q.1 ++ " " ++ foundOrMissing has_func,
      "error"⟩ : AuditResult)))
  ++ [⟨"HTML Export", "Proper list type tracking (ul/ol)",
      strContains content "listType = \"ul\"" &&
        strContains content "listType = \"ol\"",
      "List type tracking for proper tag closure", "error"⟩]
  ++ (brand_colors.map (fun q =>
    let has_color := strContains content q.1
    (⟨"HTML Export", "Has " ++ q.2, has_color,
      "Brand color " ++ q.1 ++ " " ++
        (if has_color then "defined" else "MISSING"),
      "error"⟩ : AuditResult)))
  ++ [⟨"HTML Export", "Has proper header structure",
      strContains content ".header" && strContains content ".header .brand",
      "Header with branding elements", "error"⟩]

/-- Table of required section markers checked by `audit_quality_service`. -/
def required_sections : List String := [
  "[QUICK_GLANCE]", "[INSIGHT_NOTE]", "[ACTION_BOX",
  "[FOUNDATIONAL_NARRATIVE]", "[TAKEAWAYS]", "[EXERCISE_",
  "[VISUAL_FLOWCHART", "[VISUAL_TABLE", "[STRUCTURE_MAP]"]

/-- Table of quality-check phrases checked by `audit_quality_service`. -/
def quality_checks : List (String × String) := [
  ("word count", "Word count validation"),
  ("heading structure", "Heading structure check"),
  ("properly closed", "Block closure validation")]

/-- Embedding of `InsightAtlasAuditor.audit_quality_service`: when the file
content is empty (missing/unreadable file), the group emits a single
failing record naming the file and returns early. -/
def audit_quality_service (content : String) : List AuditResult :=
  if content = "" then
    [⟨"Quality Service", "File exists", false,
      "QualityAuditService.swift not found", "error"⟩]
  else
    (required_sections.map (fun s =>
      (⟨"Quality Service", "Checks for " ++ s, strContains content s,
        "Required section check for " ++ s, "error"⟩ : AuditResult)))
    ++ (quality_checks.map (fun q =>
      (⟨"Quality Service", "Has " ++ q.2,
        strContains content.toLower q.1.toLower,
        "Quality check: " ++ q.1, "error"⟩ : AuditResult)))
    ++ [⟨"Quality Service", "Has 95% passing threshold",
        strContains content "95" || strContains content "passingThreshold",
        "95% quality threshold defined", "error"⟩]

/-- Embedding of `InsightAtlasAuditor.audit_regenerate_view`. -/
def audit_regenerate_view (content : String) : List AuditResult :=
  if content = "" then
    [⟨"Regenerate View", "File exists", false,
      "RegenerateView.swift not found", "error"⟩]
  else
    [⟨"Regenerate View", "Has iteration support",
       strContains content "iterationCount" ||
         strContains content "maxIterations",
       "Iteration counting for quality improvement", "error"⟩,
     ⟨"Regenerate View", "Has progress display",
       strContains content "ProgressView" ||
         strContains content.toLower "progress",
       "Visual progress indicator", "error"⟩,
     ⟨"Regenerate View", "Has quality score display",
       strContains content "qualityScore" ||
         strContains content "currentScore",
       "Quality score visualization", "error"⟩,
     ⟨"Regenerate View", "Has audit integration",
       strContains content "QualityAuditService" ||
         strContains content "auditReport",
       "QualityAuditService integration", "error"⟩]

/-- ASCII apostrophe, used inside two message literals of the source. -/
def apos : String := String.singleton (Char.ofNat 39)

/-- Embedding of `InsightAtlasAuditor.audit_info_plist`. -/
def audit_info_plist (plist_content : String) : List AuditResult :=
  if plist_content = "" then
    [⟨"Info.plist", "Info.plist exists", false,
      "InsightAtlas/Info.plist not found", "error"⟩]
  else
    [⟨"Info.plist", "Has BGTaskSchedulerPermittedIdentifiers entry",
       strContains plist_content "com.insightatlas.guide-generation",
       "Missing BGTaskSchedulerPermittedIdentifiers for com.insightatlas.guide-generation",
       "error"⟩,
     ⟨"Info.plist", "Includes UIBackgroundModes processing",
       strContains plist_content "processing" &&
         strContains plist_content "UIBackgroundModes",
       "UIBackgroundModes missing " ++ apos ++ "processing" ++ apos, "error"⟩]

/-- Category named by a report line, when the line is a category header. -/
def headerCat : Line → Option String
  | Line.categoryHeader c _ _ => some c
  | _ => none

/-- Data carried by a consolidated failed-check line, when the line is one. -/
def failedItemData : Line → Option (String × String × String)
  | Line.failedItem c k m => some (c, k, m)
  | _ => none

/-- File found by a recursive scan (`rglob`) of the source roots: full
path, base name (the component glob patterns are matched against) and the
optional content (`none` when `read_text` raises). -/
structure SFile where
  path : String
  name : String
  text : Option String
deriving DecidableEq, Repr

/-- Glob `*.swift`: name ends in `.swift`. -/
def isSwiftName (n : String) : Bool := ".swift".toList.isSuffixOf n.toList

/-- Glob `._*` of the AppleDouble scan: name starts with `._`. -/
def appleDoubleName (n : String) : Bool := "._".toList.isPrefixOf n.toList

/-- Glob `* 2.swift` of the duplicate scan: name ends in ` 2.swift`. -/
def duplicateSwiftName (n : String) : Bool := " 2.swift".toList.isSuffixOf n.toList

/-- Glob `*Tests.swift` of the test-suite scan. -/
def testsSwiftName (n : String) : Bool := "Tests.swift".toList.isSuffixOf n.toList

/-- Word character of the regex `\b` boundary (ASCII fragment of `\w`). -/
def isWordChar (c : Char) : Bool := c.isAlphanum || c = '_'

/-- Alternatives of the marker regex `\b(TODO|FIXME|HACK)\b`. -/
def markerWords : List String := ["TODO", "FIXME", "HACK"]

/-- Right word boundary: end of text or a non-word character. -/
def boundaryAfter (l : List Char) : Bool :=
  match l with
  | [] => true
  | c :: _ => !isWordChar c

/-- Match of `\b(TODO|FIXME|HACK)\b` anchored at the current position;
`prevOk` says the previous character (if any) was not a word character. -/
def markerAt (prevOk : Bool) (l : List Char) : Bool :=
  prevOk && markerWords.any (fun w =>
    w.toList.isPrefixOf l && boundaryAfter (l.drop w.toList.length))

/-- Search of the marker regex over the whole text. -/
def markerScan : Bool → List Char → Bool
  | prevOk, [] => markerAt prevOk []
  | prevOk, c :: rest => markerAt prevOk (c :: rest) || markerScan (!isWordChar c) rest

/-- Python `marker_pattern.search(text)` of `audit_project_hygiene`. -/
def hasTodoMarker (s : String) : Bool := markerScan true s.toList

/-- Character admitted by the class `[^\\)]` of the URL pattern: anything
but a backslash or a closing parenthesis. -/
def notClassChar (c : Char) : Bool := !(c = '\\' || c = ')')

/-- Literal tail `\\!` of the URL pattern (regex `\\\\!`: one backslash
then the bang). -/
def closeMatch : List Char → Bool
  | '\\' :: '!' :: _ => true
  | _ => false

/-- Matcher for `[^\\)]+\\!`: at least one class character, then the
closing literal; the recursion realises the backtracking choice points. -/
def classPlus : List Char → Bool
  | [] => false
  | c :: rest => notClassChar c && (closeMatch rest || classPlus rest)

/-- Matcher for `s*[^\\)]+\\!`: any run of `s` characters, then
`classPlus`; each star step is a backtracking alternative. -/
def starThenClass : List Char → Bool
  | [] => false
  | c :: rest => classPlus (c :: rest) || (c = 's' && starThenClass rest)

/-- Match of the compiled pattern `URL\\(string:\\s*[^\\)]+\\)!` anchored
at the current position.  With the doubled backslashes of the raw source
string, every `\\\\` is a literal backslash and the parentheses are group
markers, so the required literal prefix is `URL\string:\` (12 characters),
followed by `s*`, the class characters and the literal `\!`. -/
def urlMatchAt (l : List Char) : Bool :=
  "URL\\string:\\".toList.isPrefixOf l && starThenClass (l.drop 12)

/-- Python `pattern.search`: try the anchored matcher at every start
position, including the end of the text. -/
def searchFrom (p : List Char → Bool) : List Char → Bool
  | [] => p []
  | c :: rest => p (c :: rest) || searchFrom p rest

/-- Search of the URL force-unwrap pattern over a whole text. -/
def urlPatternFound (s : String) : Bool := searchFrom urlMatchAt s.toList

/-- Search of the second risky pattern `try!` (all characters literal). -/
def tryBangFound (s : String) : Bool := strContains s "try!"

/-- AppleDouble scan of `audit_project_hygiene`: paths of files whose name
matches `._*`, in traversal order. -/
def apple_double_files (fs : List SFile) : List String :=
  (fs.filter (fun f => appleDoubleName f.name)).map (fun f => f.path)

/-- Duplicate-suffix scan of `audit_project_hygiene`. -/
def duplicate_swift (fs : List SFile) : List String :=
  (fs.filter (fun f => duplicateSwiftName f.name)).map (fun f => f.path)

/-- Predicate of the marker scan: a readable `.swift` file whose text
contains a TODO/FIXME/HACK marker (an unreadable file is skipped by the
`except: continue`). -/
def markerMatches (f : SFile) : Bool :=
  isSwiftName f.name && (match f.text with
    | some t => hasTodoMarker t
    | none => false)

/-- Marker scan of `audit_project_hygiene`. -/
def markers (fs : List SFile) : List String :=
  (fs.filter markerMatches).map (fun f => f.path)

/-- Predicate of the risky-pattern scan: a readable `.swift` file whose
text matches either compiled pattern. -/
def riskyMatches (f : SFile) : Bool :=
  isSwiftName f.name && (match f.text with
    | some t => urlPatternFound t || tryBangFound t
    | none => false)

/-- Risky-pattern scan of `audit_risky_patterns`. -/
def risky_locations (fs : List SFile) : List String :=
  (fs.filter riskyMatches).map (fun f => f.path)

/-- AppleDouble record of `audit_project_hygiene`. -/
def appleDoubleResult (fs : List SFile) : AuditResult :=
  ⟨"Project Hygiene", "No AppleDouble (._) files in source roots",
   decide ((apple_double_files fs).length = 0),
   "Remove AppleDouble files: " ++ (apple_double_files fs).headD "none",
   "error"⟩

/-- Duplicate-suffix record of `audit_project_hygiene`. -/
def duplicateSwiftResult (fs : List SFile) : AuditResult :=
  ⟨"Project Hygiene",
   "No duplicate Swift files with " ++ apos ++ " 2.swift" ++ apos ++ " suffix",
   decide ((duplicate_swift fs).length = 0),
   "Remove duplicate Swift files: " ++ (duplicate_swift fs).headD "none",
   "error"⟩

/-- Marker record of `audit_project_hygiene`. -/
def markersResult (fs : List SFile) : AuditResult :=
  ⟨"Project Hygiene", "No TODO/FIXME/HACK markers",
   decide ((markers fs).length = 0),
   "Resolve markers in: " ++ (markers fs).headD "none",
   "error"⟩

/-- Test-suite record of `audit_project_hygiene`; `tests` is `none` when
the `InsightAtlasTests` root does not exist. -/
def testSuiteResult (tests : Option (List SFile)) : AuditResult :=
  let test_files : List SFile := match tests with
    | some l => l.filter (fun f => testsSwiftName f.name)
    | none => []
  ⟨"Project Hygiene", "Has test suite files",
   decide (0 < test_files.length),
   "No *Tests.swift files found in InsightAtlasTests", "error"⟩

/-- Embedding of `InsightAtlasAuditor.audit_project_hygiene`: `fs` lists
the files under the existing source roots in traversal order. -/
def audit_project_hygiene (fs : List SFile) (tests : Option (List SFile)) :
    List AuditResult :=
  [appleDoubleResult fs, duplicateSwiftResult fs, markersResult fs,
   testSuiteResult tests]

/-- Record of `audit_risky_patterns` (the only one; severity warning). -/
def riskyResult (fs : List SFile) : AuditResult :=
  ⟨"Risky Patterns", "No force unwraps or try! in source",
   decide ((risky_locations fs).length = 0),
   "Review risky patterns in: " ++ (risky_locations fs).headD "none",
   "warning"⟩

/-- Embedding of `InsightAtlasAuditor.audit_risky_patterns`. -/
def audit_risky_patterns (fs : List SFile) : List AuditResult :=
  [riskyResult fs]

/-- Text of a scanned file contains the literal `try!`. -/
def textHasTryBang : Option String → Bool
  | some t => tryBangFound t
  | none => false

/-- Text of a scanned file is free of backslash characters (vacuously true
for an unreadable file). -/
def textNoBackslash : Option String → Bool
  | some t => t.toList.all (fun c => !(c = '\\'))
  | none => true

/-- Claim C1 — the overall score returned by `print_results` is
`passed_checks / total_checks * 100` when `total_checks > 0`, and `0` for
the empty result sequence (the empty case is an ordinary value of the
total function, not an error). -/
theorem print_results_score_spec (results : List AuditResult) :
    (0 < total_checks results →
       (print_results results).2 =
         ((passed_checks results : ℚ) / (total_checks results : ℚ)) * 100) ∧
    (print_results ([] : List AuditResult)).2 = 0 := by
  constructor
  · intro h
    have h' : 0 < results.length := h
    show score results = _
    simp only [score, if_pos h']
    rfl
  · rfl

/-- Witness for C1: a concrete singleton run evaluates to score 100. -/
theorem print_results_score_spec_witness :
    (print_results [⟨"HTML Export", "Has Gold primary color", true,
        "Brand color found", "error"⟩]).2 = 100 := by
  have h := (print_results_score_spec
    [⟨"HTML Export", "Has Gold primary color", true, "Brand color found", "error"⟩]).1
    (by decide)
  rw [h]
  norm_num [passed_checks, total_checks]

/-- Claim C2 — `read_file` returns the decoded text when the read succeeds
and the empty string on any failure; it is a total function, so no
exception propagates. -/
theorem read_file_spec (fs : FPath → Option String) (p : FPath) :
    (∀ s, fs p = some s → read_file fs p = s) ∧
    (fs p = none → read_file fs p = "") := by
  constructor
  · intro s hs; simp [read_file, hs]
  · intro hn; simp [read_file, hn]

/-- Witness for C2: a concrete filesystem where one path succeeds and
another fails. -/
theorem read_file_spec_witness :
    read_file (fun q => if q = "a.swift" then some "let x = 1" else none)
        "a.swift" = "let x = 1" ∧
    read_file (fun q => if q = "a.swift" then some "let x = 1" else none)
        "b.swift" = "" := by
  refine ⟨(read_file_spec _ "a.swift").1 "let x = 1" (by simp),
          (read_file_spec _ "b.swift").2 (by simp)⟩

/-- Claim C4 (counterexample) — `read_file` does not memoize: the two reads
of `DataManager.swift` performed by `audit_html_export` and
`audit_pdf_export` in one run each invoke the underlying `read_text`, so
the underlying read count for that path is 2, not 1. -/
theorem read_file_counted_two_reads :
    ((read_file_counted
        (fun p => if p = data_manager_path then some "func generatePDF" else none)
        (read_file_counted
          (fun p => if p = data_manager_path then some "func generatePDF" else none)
          initReads data_manager_path).2
        data_manager_path).2).count data_manager_path = 2 := by
  simp [read_file_counted, initReads]

/-- Claim C4 (amended) — `read_file` performs the underlying read on every
invocation: reading the same path twice within a run performs two
underlying reads (one per call, no memoization), and both calls return the
same content, so repeated reads are redundant but harmless. -/
theorem read_file_counted_no_memo (fs : FPath → Option String)
    (st : ReadCount) (p : FPath) :
    (read_file_counted fs st p).2.count p = st.count p + 1 ∧
    (read_file_counted fs (read_file_counted fs st p).2 p).2.count p =
      st.count p + 2 ∧
    (read_file_counted fs (read_file_counted fs st p).2 p).1 =
      (read_file_counted fs st p).1 := by
  refine ⟨by simp [read_file_counted], by simp [read_file_counted], rfl⟩

/-- Claim C7 — the overall score returned by `print_results` is invariant
under permutation of the result sequence: order affects only report
presentation, never the score. -/
theorem print_results_score_perm (rs rs' : List AuditResult)
    (h : rs.Perm rs') : (print_results rs).2 = (print_results rs').2 := by
  show score rs = score rs'
  unfold score
  rw [h.length_eq, (h.filter _).length_eq]

/-- Witness for C7: swapping two concrete records leaves the score equal. -/
theorem print_results_score_perm_witness :
    (print_results [⟨"A", "c1", true, "m1", "error"⟩,
                    ⟨"B", "c2", false, "m2", "error"⟩]).2 =
    (print_results [⟨"B", "c2", false, "m2", "error"⟩,
                    ⟨"A", "c1", true, "m1", "error"⟩]).2 :=
  print_results_score_perm _ _ (List.Perm.swap _ _ _)

/-- Claim C8 — a group's effect on the session is deterministic appending:
running `audit_html_export` twice against identical file content appends
the identical record sequence each time; no hidden state alters the
emitted records between runs. -/
theorem audit_html_export_idempotent (content : String)
    (session : List AuditResult) :
    run_group audit_html_export content session =
      session ++ audit_html_export content ∧
    run_group audit_html_export content
        (run_group audit_html_export content session) =
      session ++ audit_html_export content ++ audit_html_export content := by
  refine ⟨rfl, ?_⟩
  simp [run_group]

/-- Claim C3 (counterexample) — with `DataManager.swift` missing (its
content the empty string after the swallowed read failure),
`audit_html_export` emits 25 records, all failing, yet none of their
messages names the expected file: the group reports only generic
marker-missing messages. -/
theorem audit_html_export_missing_file_anonymous :
    (audit_html_export "").length = 25 ∧
    (audit_html_export "").all (fun r => !r.passed) = true ∧
    (audit_html_export "").all
      (fun r => !(strContains r.message "DataManager")) = true := by
  refine ⟨by decide, by decide, by decide⟩

/-- Claim C3 (amended) — the groups that explicitly guard on empty content
(`audit_quality_service`, `audit_regenerate_view`, `audit_info_plist`)
each emit, for a missing target file, exactly one failing record whose
message names the expected file. -/
theorem guarded_groups_name_missing_file :
    audit_quality_service "" =
      [⟨"Quality Service", "File exists", false,
        "QualityAuditService.swift not found", "error"⟩] ∧
    audit_regenerate_view "" =
      [⟨"Regenerate View", "File exists", false,
        "RegenerateView.swift not found", "error"⟩] ∧
    audit_info_plist "" =
      [⟨"Info.plist", "Info.plist exists", false,
        "InsightAtlas/Info.plist not found", "error"⟩] ∧
    strContains "QualityAuditService.swift not found"
      "QualityAuditService.swift" = true ∧
    strContains "RegenerateView.swift not found" "RegenerateView.swift" = true ∧
    strContains "InsightAtlas/Info.plist not found" "Info.plist" = true := by
  refine ⟨by decide, by decide, by decide, by decide, by decide, by decide⟩

/-- Membership in `firstSeen` coincides with membership in the key list. -/
theorem mem_firstSeen (x : String) :
    ∀ cs : List String, x ∈ firstSeen cs ↔ x ∈ cs := by
  intro cs
  induction cs with
  | nil => simp [firstSeen]
  | cons c cs ih =>
    by_cases hx : x = c
    · simp [firstSeen, hx]
    · simp [firstSeen, List.mem_filter, hx, ih]

/-- Keys produced by `firstSeen` are pairwise distinct. -/
theorem firstSeen_nodup : ∀ cs : List String, (firstSeen cs).Nodup := by
  intro cs
  induction cs with
  | nil => simp [firstSeen]
  | cons c cs ih =>
    refine List.Nodup.cons ?_ (ih.filter _)
    intro hmem
    have := (List.mem_filter.mp hmem).2
    simp at this

/-- Appending one key: a seen key leaves `firstSeen` unchanged, an unseen
key is appended at the end. -/
theorem firstSeen_append_singleton (cs : List String) (x : String) :
    firstSeen (cs ++ [x]) =
      if x ∈ cs then firstSeen cs else firstSeen cs ++ [x] := by
  induction cs with
  | nil => simp [firstSeen]
  | cons c cs ih =>
    by_cases hxc : x = c
    · subst hxc
      by_cases hx : x ∈ cs
      · simp [firstSeen, ih, hx]
      · simp [firstSeen, ih, hx, List.filter_append]
    · by_cases hx : x ∈ cs
      · simp [firstSeen, ih, hx, hxc]
      · simp [firstSeen, ih, hx, hxc, List.filter_append]

/-- One grouping step on the closed form: inserting a record whose category
was already seen appends it to that category's sublist; a new category adds
a fresh entry at the end. -/
theorem addToGroups_groupsOf (pre : List AuditResult) (r : AuditResult) :
    addToGroups (groupsOf pre) r = groupsOf (pre ++ [r]) := by
  by_cases hmem : r.category ∈ pre.map (fun s => s.category)
  · have hany : (groupsOf pre).any (fun p => p.1 = r.category) = true := by
      simp only [groupsOf, List.any_eq_true]
      refine ⟨(r.category, pre.filter (fun s => s.category = r.category)),
        ?_, by simp⟩
      exact List.mem_map.mpr ⟨r.category, (mem_firstSeen _ _).mpr hmem, rfl⟩
    unfold addToGroups
    rw [if_pos hany]
    unfold groupsOf
    have hkeys : firstSeen ((pre ++ [r]).map (fun s => s.category)) =
        firstSeen (pre.map (fun s => s.category)) := by
      rw [List.map_append]
      simp only [List.map_cons, List.map_nil]
      rw [firstSeen_append_singleton, if_pos hmem]
    rw [hkeys, List.map_map]
    apply List.map_congr_left
    intro c hc
    by_cases hcr : c = r.category
    · subst hcr
      simp [Function.comp, List.filter_append]
    · have hrc : ¬ (r.category = c) := fun h => hcr h.symm
      simp [Function.comp, List.filter_append, hcr, hrc]
  · have hany : ¬ ((groupsOf pre).any (fun p => p.1 = r.category) = true) := by
      simp only [groupsOf, List.any_eq_true]
      rintro ⟨p, hp, hpeq⟩
      rcases List.mem_map.mp hp with ⟨c, hc, rfl⟩
      have hcr : c = r.category := by simpa using hpeq
      exact hmem ((mem_firstSeen _ _).mp (hcr ▸ hc))
    unfold addToGroups
    rw [if_neg hany]
    unfold groupsOf
    have hkeys : firstSeen ((pre ++ [r]).map (fun s => s.category)) =
        firstSeen (pre.map (fun s => s.category)) ++ [r.category] := by
      rw [List.map_append]
      simp only [List.map_cons, List.map_nil]
      rw [firstSeen_append_singleton, if_neg hmem]
    rw [hkeys, List.map_append]
    congr 1
    · apply List.map_congr_left
      intro c hc
      have hcr : ¬ (r.category = c) := by
        intro h
        exact hmem (h ▸ (mem_firstSeen _ _).mp hc)
      simp [List.filter_append, hcr]
    · have hnil : pre.filter (fun s => s.category = r.category) = [] := by
        rw [List.filter_eq_nil_iff]
        intro a ha hcat
        exact hmem (List.mem_map.mpr ⟨a, ha, by simpa using hcat⟩)
      simp [List.filter_append, hnil]

/-- Folding the grouping step over a record list extends the closed form. -/
theorem foldl_addToGroups (rs : List AuditResult) :
    ∀ pre : List AuditResult,
      List.foldl addToGroups (groupsOf pre) rs = groupsOf (pre ++ rs) := by
  induction rs with
  | nil => intro pre; simp
  | cons r rs ih =>
    intro pre
    rw [List.foldl_cons, addToGroups_groupsOf, ih (pre ++ [r])]
    simp

/-- Refinement of the grouping loop of `print_results`: the loop computes
keys in first-seen order, each paired with the records of that category in
arrival order. -/
theorem groupByCategory_eq_groupsOf (rs : List AuditResult) :
    groupByCategory rs = groupsOf rs := by
  have h := foldl_addToGroups rs []
  rw [List.nil_append] at h
  exact h

/-- Splitting a record list by one category: matching plus non-matching
lengths give the total length. -/
theorem filter_category_split (rs : List AuditResult) (c : String) :
    (rs.filter (fun r => r.category = c)).length +
      (rs.filter (fun r => !(decide (r.category = c)))).length = rs.length := by
  induction rs with
  | nil => rfl
  | cons r rs ih =>
    by_cases h : r.category = c
    · simp [List.filter_cons, h]
      omega
    · simp [List.filter_cons, h]
      omega

/-- Splitting a record list by pass/fail: pass count plus fail count gives
the total length. -/
theorem filter_passed_split (l : List AuditResult) :
    (l.filter (fun r => r.passed)).length +
      (l.filter (fun r => !r.passed)).length = l.length := by
  induction l with
  | nil => rfl
  | cons r rs ih =>
    cases hr : r.passed <;> simp [List.filter_cons, hr] <;> omega

/-- Summing the per-category record counts over a duplicate-free key list
covering every record's category recovers the total record count. -/
theorem length_eq_sum_filter_lengths :
    ∀ (cs : List String) (rs : List AuditResult), cs.Nodup →
      (∀ r ∈ rs, r.category ∈ cs) →
      (cs.map (fun c => (rs.filter (fun r => r.category = c)).length)).sum
        = rs.length := by
  intro cs
  induction cs with
  | nil =>
    intro rs _ hc
    cases rs with
    | nil => simp
    | cons r rs => exact absurd (hc r (by simp)) (by simp)
  | cons c cs ih =>
    intro rs hnd hc
    simp only [List.map_cons, List.sum_cons]
    have hmapeq :
        cs.map (fun c' => (rs.filter (fun r => r.category = c')).length)
          = cs.map (fun c' =>
              (((rs.filter (fun r => !(decide (r.category = c))))).filter
                (fun r => r.category = c')).length) := by
      apply List.map_congr_left
      intro c' hc'
      have hne : c' ≠ c := by
        rintro rfl
        exact (List.nodup_cons.mp hnd).1 hc'
      rw [List.filter_filter]
      congr 1
      apply List.filter_congr
      intro x _
      by_cases hxc : x.category = c'
      · simp [hxc, hne]
      · simp [hxc]
    rw [hmapeq, ih _ (List.nodup_cons.mp hnd).2 ?_]
    · exact filter_category_split rs c
    · intro r hr
      have hrs := List.mem_filter.mp hr
      rcases List.mem_cons.mp (hc r hrs.1) with h1 | h2
      · exfalso
        have := hrs.2
        simp [h1] at this
      · exact h2

/-- Lines of a category section are only the header, per-check lines and
failure details. -/
theorem categoryBlock_elems (p : String × List AuditResult) :
    ∀ l ∈ categoryBlock p,
      (∃ c a b, l = Line.categoryHeader c a b) ∨
      (∃ b k, l = Line.checkLine b k) ∨ (∃ m, l = Line.failDetail m) := by
  intro l hl
  unfold categoryBlock at hl
  rcases List.mem_cons.mp hl with h | h
  · exact Or.inl ⟨p.1, _, _, h⟩
  · rcases List.mem_flatMap.mp h with ⟨r, _, hlr⟩
    rcases List.mem_cons.mp hlr with h2 | h2
    · exact Or.inr (Or.inl ⟨r.passed, r.check, h2⟩)
    · cases hp : r.passed
      · rw [hp] at h2
        simp only [if_neg Bool.false_ne_true, List.mem_singleton] at h2
        exact Or.inr (Or.inr ⟨r.message, h2⟩)
      · rw [hp] at h2
        simp at h2

/-- Category sections contribute exactly their category name to the
header lines of the report. -/
theorem filterMap_headerCat_categoryBlock (p : String × List AuditResult) :
    (categoryBlock p).filterMap headerCat = [p.1] := by
  unfold categoryBlock
  rw [List.filterMap_cons]
  have hrest : (p.2.flatMap (fun r =>
      Line.checkLine r.passed r.check ::
        (if r.passed then [] else [Line.failDetail r.message]))).filterMap
        headerCat = [] := by
    rw [List.filterMap_eq_nil_iff]
    intro l hl
    rcases List.mem_flatMap.mp hl with ⟨r, _, hlr⟩
    rcases List.mem_cons.mp hlr with h2 | h2
    · rw [h2]; rfl
    · cases hp : r.passed
      · rw [hp] at h2
        simp only [if_neg Bool.false_ne_true, List.mem_singleton] at h2
        rw [h2]; rfl
      · rw [hp] at h2
        simp at h2
  rw [hrest]
  rfl

/-- Category sections contribute no consolidated failed-check lines. -/
theorem filterMap_failedItemData_categoryBlock (p : String × List AuditResult) :
    (categoryBlock p).filterMap failedItemData = [] := by
  rw [List.filterMap_eq_nil_iff]
  intro l hl
  rcases categoryBlock_elems p l hl with ⟨c, a, b, rfl⟩ | ⟨b, k, rfl⟩ | ⟨m, rfl⟩
  · rfl
  · rfl
  · rfl

/-- Category sections never contain the all-checks-passed line. -/
theorem allPassed_not_mem_categoryBlock (p : String × List AuditResult) :
    Line.allPassed ∉ categoryBlock p := by
  intro h
  rcases categoryBlock_elems p _ h with ⟨c, a, b, he⟩ | ⟨b, k, he⟩ | ⟨m, he⟩
  · exact Line.noConfusion he
  · exact Line.noConfusion he
  · exact Line.noConfusion he

/-- Structure of the emitted report, with the let-bindings resolved. -/
theorem print_results_eq (rs : List AuditResult) :
    print_results rs =
      (Line.banner "AUDIT RESULTS" ::
        ((groupByCategory rs).flatMap categoryBlock ++
          (Line.overallScore (score rs) (passed_checks rs) (total_checks rs) ::
            (if 0 < failed_checks rs then
              Line.issuesCount (failed_checks rs) ::
                Line.banner "FAILED CHECKS:" ::
                  (rs.filter (fun r => !r.passed)).map
                    (fun r => Line.failedItem r.category r.check r.message)
            else [Line.allPassed]))),
       score rs) := rfl

/-- Mapping each element to a singleton and flattening is mapping. -/
theorem flatMap_singleton_map {α β : Type} (f : α → β) (l : List α) :
    l.flatMap (fun a => [f a]) = l.map f := by
  induction l with
  | nil => rfl
  | cons a l ih => simp [ih]

/-- Claim C9 — grouping by category is a partition of the result sequence:
the report's section headers appear in first-seen category order, each
category's local pass count plus fail count equals the number of records
bearing that category, and the per-category totals sum to the total check
count. -/
theorem groupByCategory_partition (rs : List AuditResult) :
    (print_results rs).1.filterMap headerCat
        = firstSeen (rs.map (fun r => r.category)) ∧
    (groupByCategory rs).all (fun p =>
        ((p.2.filter (fun r => r.passed)).length +
          (p.2.filter (fun r => !r.passed)).length) ==
          (rs.filter (fun r => r.category = p.1)).length) = true ∧
    ((groupByCategory rs).map (fun p => p.2.length)).sum = rs.length := by
  have hkeys : (groupByCategory rs).map Prod.fst
      = firstSeen (rs.map (fun r => r.category)) := by
    rw [groupByCategory_eq_groupsOf]
    unfold groupsOf
    rw [List.map_map]
    have hid : (Prod.fst ∘ fun c : String =>
        (c, rs.filter (fun r => r.category = c))) = id := rfl
    rw [hid, List.map_id]
  refine ⟨?_, ?_, ?_⟩
  · rw [print_results_eq, ← hkeys]
    by_cases hf : 0 < failed_checks rs <;>
      simp [hf, List.filterMap_cons, List.filterMap_append, List.filterMap_flatMap,
        filterMap_headerCat_categoryBlock, flatMap_singleton_map, headerCat,
        List.filterMap_map, Function.comp]
  · rw [groupByCategory_eq_groupsOf, List.all_eq_true]
    intro p hp
    rcases List.mem_map.mp hp with ⟨c, hc, rfl⟩
    have hsplit := filter_passed_split (rs.filter (fun r => r.category = c))
    simpa using hsplit
  · rw [groupByCategory_eq_groupsOf]
    unfold groupsOf
    rw [List.map_map]
    exact length_eq_sum_filter_lengths _ _ (firstSeen_nodup _)
      (fun r hr => (mem_firstSeen _ _).mpr (List.mem_map.mpr ⟨r, hr, rfl⟩))

/-- Consolidated failed-check lines decode back to the record data they
were built from. -/
theorem filterMap_failedItemData_map (l : List AuditResult) :
    (l.map (fun r => Line.failedItem r.category r.check r.message)).filterMap
      failedItemData = l.map (fun r => (r.category, r.check, r.message)) := by
  induction l with
  | nil => rfl
  | cons r l ih => simp [List.filterMap_cons, failedItemData, ih]

/-- Variant of `filterMap_failedItemData_map` in composed form. -/
theorem filterMap_failedItemData_comp (l : List AuditResult) :
    l.filterMap (failedItemData ∘ fun r =>
        Line.failedItem r.category r.check r.message)
      = l.map (fun r => (r.category, r.check, r.message)) := by
  induction l with
  | nil => rfl
  | cons r l ih => simp [List.filterMap_cons, failedItemData, Function.comp, ih]

/-- Claim C5 — when no check fails, the report contains the distinct
all-checks-passed line and no consolidated failure listing; when checks
fail, it contains the consolidated listing of every failing record with
its category, check name and message in original result order, and no
all-passed line; in both cases `print_results` returns the numeric score
as the caller-visible verdict. -/
theorem print_results_failure_listing (rs : List AuditResult) :
    ((print_results rs).1.filterMap failedItemData =
      if 0 < failed_checks rs then
        (rs.filter (fun r => !r.passed)).map
          (fun r => (r.category, r.check, r.message))
      else []) ∧
    (Line.allPassed ∈ (print_results rs).1 ↔ failed_checks rs = 0) ∧
    (print_results rs).2 = score rs := by
  have hGfm : ((groupByCategory rs).flatMap categoryBlock).filterMap
      failedItemData = [] := by
    rw [List.filterMap_flatMap]
    simp [filterMap_failedItemData_categoryBlock]
  have hGnp : Line.allPassed ∉ (groupByCategory rs).flatMap categoryBlock := by
    intro h
    rcases List.mem_flatMap.mp h with ⟨p, _, hp⟩
    exact allPassed_not_mem_categoryBlock p hp
  refine ⟨?_, ?_, rfl⟩
  · rw [print_results_eq]
    by_cases hf : 0 < failed_checks rs <;>
      simp [hf, List.filterMap_cons, List.filterMap_append, hGfm, failedItemData,
        filterMap_failedItemData_map, filterMap_failedItemData_comp]
  · rw [print_results_eq]
    by_cases hf : 0 < failed_checks rs
    · rw [if_pos hf]
      constructor
      · intro hmem
        exfalso
        rcases List.mem_cons.mp hmem with h | h
        · exact Line.noConfusion h
        rcases List.mem_append.mp h with h | h
        · exact hGnp h
        rcases List.mem_cons.mp h with h | h
        · exact Line.noConfusion h
        rcases List.mem_cons.mp h with h | h
        · exact Line.noConfusion h
        rcases List.mem_cons.mp h with h | h
        · exact Line.noConfusion h
        rcases List.mem_map.mp h with ⟨r, _, hr⟩
        exact Line.noConfusion hr
      · intro h0
        exact absurd h0 (by omega)
    · have h0 : failed_checks rs = 0 := by omega
      rw [if_neg hf]
      refine ⟨fun _ => h0, fun _ => ?_⟩
      simp

/-- Emptiness test of a scan's path list, as a statement about the scanned
files: the scan yields no path exactly when no file matches. -/
theorem scanPassed_iff (m : SFile → Bool) :
    ∀ fs : List SFile,
      decide (((fs.filter m).map (fun f => f.path)).length = 0)
        = fs.all (fun f => !(m f)) := by
  intro fs
  induction fs with
  | nil => rfl
  | cons f fs ih =>
    cases hm : m f
    · simp only [List.filter_cons, hm, List.all_cons, Bool.not_false,
        Bool.true_and, cond_false]
      exact ih
    · simp [List.filter_cons, hm]

/-- A list is a Boolean prefix of itself. -/
theorem isPrefixOf_self (l : List Char) : l.isPrefixOf l = true :=
  List.isPrefixOf_iff_prefix.mpr (List.prefix_refl l)

/-- The substring search finds a pattern placed at the end of the text. -/
theorem infixOf_append_left (pat : List Char) :
    ∀ a : List Char, infixOf pat (a ++ pat) = true := by
  intro a
  induction a with
  | nil =>
    cases pat with
    | nil => rfl
    | cons c rest => simp [infixOf, isPrefixOf_self]
  | cons c a ih => simp [infixOf, ih]

/-- String form: a text ending in the pattern contains the pattern. -/
theorem strContains_append_right (a b : String) :
    strContains (a ++ b) b = true := by
  unfold strContains
  have h : (a ++ b).toList = a.toList ++ b.toList := by
    simp [String.toList]
  rw [h]
  exact infixOf_append_left _ _

/-- Claim C6 — each tree-scan check (AppleDouble files, duplicate
` 2.swift` files, TODO/FIXME/HACK markers, risky patterns) emits exactly
one record per run; the record passes exactly when no scanned file
matches, and its message includes the first offending file's path (the
placeholder "none" when there is no match). -/
theorem tree_scan_checks (fs : List SFile) (tests : Option (List SFile)) :
    audit_project_hygiene fs tests =
      [appleDoubleResult fs, duplicateSwiftResult fs, markersResult fs,
        testSuiteResult tests] ∧
    audit_risky_patterns fs = [riskyResult fs] ∧
    (appleDoubleResult fs).passed
        = fs.all (fun f => !(appleDoubleName f.name)) ∧
    strContains (appleDoubleResult fs).message
      ((apple_double_files fs).headD "none") = true ∧
    (duplicateSwiftResult fs).passed
        = fs.all (fun f => !(duplicateSwiftName f.name)) ∧
    strContains (duplicateSwiftResult fs).message
      ((duplicate_swift fs).headD "none") = true ∧
    (markersResult fs).passed = fs.all (fun f => !(markerMatches f)) ∧
    strContains (markersResult fs).message
      ((markers fs).headD "none") = true ∧
    (riskyResult fs).passed = fs.all (fun f => !(riskyMatches f)) ∧
    strContains (riskyResult fs).message
      ((risky_locations fs).headD "none") = true := by
  refine ⟨rfl, rfl, scanPassed_iff _ fs, strContains_append_right _ _,
    scanPassed_iff _ fs, strContains_append_right _ _,
    scanPassed_iff _ fs, strContains_append_right _ _,
    scanPassed_iff _ fs, strContains_append_right _ _⟩

/-- An anchored match of the URL pattern requires a backslash: its literal
prefix `URL\string:\` contains one. -/
theorem urlMatchAt_has_backslash (l : List Char) :
    urlMatchAt l = true → '\\' ∈ l := by
  intro h
  have hp := (Bool.and_eq_true_iff.mp h).1
  have hpre := List.isPrefixOf_iff_prefix.mp hp
  exact hpre.subset (by decide)

/-- A successful search of the URL pattern requires a backslash somewhere
in the text. -/
theorem searchFrom_urlMatchAt_backslash :
    ∀ l : List Char, searchFrom urlMatchAt l = true → '\\' ∈ l := by
  intro l
  induction l with
  | nil =>
    intro h
    exact absurd h (by decide)
  | cons c rest ih =>
    intro h
    rcases Bool.or_eq_true_iff.mp h with h1 | h2
    · exact urlMatchAt_has_backslash _ h1
    · exact List.mem_cons_of_mem c (ih h2)

/-- On backslash-free text the URL pattern never matches. -/
theorem urlPatternFound_no_backslash (s : String)
    (hnb : textNoBackslash (some s) = true) : urlPatternFound s = false := by
  cases hu : urlPatternFound s
  · rfl
  · exfalso
    have hmem := searchFrom_urlMatchAt_backslash _ hu
    have := List.all_eq_true.mp hnb '\\' hmem
    simp at this

/-- Pointwise equal Boolean predicates give equal `all` over a list. -/
theorem all_congr_mem {α : Type} (p q : α → Bool) :
    ∀ l : List α, (∀ a ∈ l, p a = q a) → l.all p = l.all q := by
  intro l
  induction l with
  | nil => intro _; rfl
  | cons a l ih =>
    intro h
    simp only [List.all_cons, h a (by simp),
      ih (fun b hb => h b (List.mem_cons_of_mem a hb))]

/-- Claim C10 — the URL force-unwrap pattern was compiled from a raw string
with doubled backslashes, so it matches only text containing literal
backslashes; consequently, over Swift sources free of backslash
characters, the risky-patterns check passes exactly when no scanned
`.swift` file contains the substring `try!` — a genuine force unwrap such
as `URL(string: "x")!` alone never causes failure. -/
theorem risky_patterns_try_only (fs : List SFile)
    (hnb : fs.all (fun f => textNoBackslash f.text) = true) :
    (riskyResult fs).passed
      = fs.all (fun f => !(isSwiftName f.name && textHasTryBang f.text)) := by
  have hpw : ∀ f ∈ fs,
      (!(riskyMatches f)) = (!(isSwiftName f.name && textHasTryBang f.text)) := by
    intro f hf
    have hnbf := List.all_eq_true.mp hnb f hf
    cases ht : f.text with
    | none =>
      unfold riskyMatches textHasTryBang
      rw [ht]
    | some t =>
      rw [ht] at hnbf
      unfold riskyMatches textHasTryBang
      rw [ht]
      simp [urlPatternFound_no_backslash t hnbf]
  have hbase := scanPassed_iff riskyMatches fs
  calc (riskyResult fs).passed
      = fs.all (fun f => !(riskyMatches f)) := hbase
    _ = fs.all (fun f => !(isSwiftName f.name && textHasTryBang f.text)) :=
        all_congr_mem _ _ fs hpw

/-- Witness for C10: a Swift file whose only risky construct is a genuine
URL force unwrap passes the check, while a file containing `try!` fails
it. -/
theorem risky_patterns_try_only_witness :
    (riskyResult [⟨"InsightAtlas/A.swift", "A.swift",
        some "let u = URL(string: \"https://example.com\")!"⟩]).passed
      = true ∧
    (riskyResult [⟨"InsightAtlas/B.swift", "B.swift",
        some "let v = try! decoder.decode()"⟩]).passed = false := by
  constructor
  · rw [risky_patterns_try_only _ (by decide)]
    decide
  · rw [risky_patterns_try_only _ (by decide)]
    decide
